import Mathlib

set_option maxRecDepth 8000

/-!
A shallow embedding of the `kemet` recursive text-search utility
(`src/main.rs`) and proofs of the specification claims about it.

Modelling conventions:
* Rust `String`/`&str` become Lean `String`; paths become `String`
  (joined with `"/"`, mirroring `Path::join`).
* The filesystem is an explicit inductive tree `FS`: directory listings
  carry their enumeration order, and every fallible I/O step (reading a
  directory, reading one entry, opening a file, reading one line) carries
  an explicit success/failure outcome, so each run of the program is a
  pure function of the argument vector and the filesystem value.
* `env::current_dir`, `Path::exists` and `Path::is_dir` are modelled as
  explicit parameters (`cwd`, `path_exists`, `is_dir`).
* Rust `str::to_lowercase` is modelled with `Char.toLower` (an ASCII
  fold; the spec itself declares the fold "ASCII-safe but not fully
  locale-aware").
* The output sink is modelled as the list of lines written via
  `writeln`; sink-creation failure is outside the model.
-/

namespace Kemet

/-! ### Rust standard-library string operations used by the program -/

/-- Rust `str::to_lowercase` as used in `search_in_file` (ASCII fold). -/
def lowercase (s : String) : String :=
  String.mk (s.data.map Char.toLower)

/-- Rust `str::trim` (drop leading and trailing whitespace). -/
def rustTrim (s : String) : String :=
  String.mk (((s.data.dropWhile Char.isWhitespace).reverse.dropWhile Char.isWhitespace).reverse)

/-- Splitting a character list at every occurrence of `sep`
(Rust `str::split(sep)`). -/
def splitOnChar (sep : Char) : List Char → List (List Char)
  | [] => [[]]
  | c :: cs =>
      let r := splitOnChar sep cs
      if c = sep then [] :: r
      else
        match r with
        | [] => [[c]]
        | h :: t => (c :: h) :: t

/-- Rust `str::contains` (substring test), used on each line. -/
def strContains (hay needle : String) : Bool :=
  decide (List.IsInfix needle.data hay.data)

/-- Rust `str::eq_ignore_ascii_case`, used by `should_search_file`. -/
def eq_ignore_ascii_case (a b : String) : Bool :=
  a.data.map Char.toLower == b.data.map Char.toLower

/-- Rust `Path::file_name` for the paths the scanner builds
(final `/`-separated component). -/
def fileName (p : String) : String :=
  String.mk ((splitOnChar '/' p.data).getLastD p.data)

/-- The characters after the last `'.'` of a list, if it has a `'.'`.
This is the `rposition` search that `std::path` performs on the file
name with its first character excluded. -/
def extAfterLastDot : List Char → Option (List Char)
  | [] => none
  | c :: cs => if c = '.' then some ((extAfterLastDot cs).getD cs) else extAfterLastDot cs

/-- Rust `Path::extension` on a file name: the part after the last dot,
except that a dot at index 0 does not begin an extension and `".."` has
no extension. -/
def rustExtension (name : String) : Option String :=
  if name == ".." then none
  else
    match name.data with
    | [] => none
    | _ :: rest => (extAfterLastDot rest).map (fun cs => String.mk cs)

/-! ### Data model: `Config`, `Match`, scan state, file contents -/

/-- Model of `struct Config` from the source. -/
structure Config where
  path : String
  search_text : String
  extensions : List String
  case_sensitive : Bool
  show_line_content : Bool
  output_file : Option String
deriving DecidableEq

/-- Model of `struct Match` from the source. -/
structure Match where
  file_path : String
  line_number : Nat
  line_content : Option String
deriving DecidableEq

/-- The mutable fields of `SearchEngine` (matches, files_searched,
errors), threaded explicitly. -/
structure ScanState where
  matches' : List Match
  files_searched : Nat
  errors : List String
deriving DecidableEq

deriving instance DecidableEq for Except

/-- The observable behaviour of one file: whether `File::open` fails
(with the error's rendering), and the outcome of each successive
`BufRead::lines` item (`Except.ok line` or `Except.error reason`). -/
structure FileData where
  openErr : Option String
  lines : List (Except String String)
deriving DecidableEq

/-- Model of `Match::format_output`. -/
def Match.format_output (m : Match) (config : Config) : String :=
  if config.show_line_content then
    match m.line_content with
    | some content =>
        m.file_path ++ " (Line " ++ toString m.line_number ++ "): " ++ rustTrim content
    | none => m.file_path ++ " (Line " ++ toString m.line_number ++ ")"
  else
    m.file_path ++ " (Line " ++ toString m.line_number ++ ")"

/-! ### The scanner (`SearchEngine`) -/

/-- The `for (line_number, line_result) in reader.lines().enumerate()`
loop of `search_in_file`: `line_number` is the 0-based counter, a match
is pushed when the case-normalized line contains `search_text` (already
normalized once per file), and a line read error is recorded and stops
the loop. -/
def scan_lines (config : Config) (file_path search_text : String) :
    Nat → List (Except String String) → ScanState → ScanState
  | _, [], st => st
  | line_number, Except.ok line :: rest, st =>
      let line_to_check := if config.case_sensitive then line else lowercase line
      let st' :=
        if strContains line_to_check search_text then
          { st with matches' := st.matches' ++
              [⟨file_path, line_number + 1,
                if config.show_line_content then some line else none⟩] }
        else st
      scan_lines config file_path search_text (line_number + 1) rest st'
  | line_number, Except.error e :: _, st =>
      { st with errors := st.errors ++
          ["Could not read line " ++ toString (line_number + 1) ++
            " in file " ++ file_path ++ ": " ++ e] }

/-- Model of `SearchEngine::search_in_file`: on open failure record the error and
return; on success increment `files_searched`, normalize the needle
once, then run the line loop. -/
def search_in_file (config : Config) (file_path : String) (data : FileData)
    (st : ScanState) : ScanState :=
  match data.openErr with
  | some e =>
      { st with errors := st.errors ++
          ["Could not open file " ++ file_path ++ ": " ++ e] }
  | none =>
      let st' := { st with files_searched := st.files_searched + 1 }
      let search_text :=
        if config.case_sensitive then config.search_text
        else lowercase config.search_text
      scan_lines config file_path search_text 0 data.lines st'

/-- Model of `SearchEngine::should_search_file`: dotted extension of the path's
file name, compared case-insensitively against `config.extensions`. -/
def should_search_file (config : Config) (path : String) : Bool :=
  match rustExtension (fileName path) with
  | none => false
  | some ext =>
      config.extensions.any (fun e => eq_ignore_ascii_case e ("." ++ ext))

/-! ### The filesystem model and `visit_dir` -/

mutual

/-- A filesystem node. `dirErr` is a directory whose `read_dir` fails;
`dirOk` carries the listing in enumeration order; `other` is an entry
that is neither a regular file nor a directory. -/
inductive FS where
  | file (data : FileData)
  | other
  | dirErr (msg : String)
  | dirOk (entries : Entries)

/-- A directory listing in enumeration order; `entryErr` is an entry for
which the `ReadDir` iterator yields an `Err`. -/
inductive Entries where
  | nil
  | entryErr (msg : String) (rest : Entries)
  | entry (name : String) (fs : FS) (rest : Entries)

end

/-- The `for entry_result in entries` loop of `visit_dir`: an entry
error is recorded and the loop continues; a subdirectory is recursed
into with `visit_dir` (whose two directory cases — enumeration failure
and successful listing — are inlined here so the recursion is
structural; `visit_dir` below is the same dispatch); a regular file is
scanned iff it passes the extension filter; anything else is skipped
silently. -/
def visit_entries (config : Config) (dir : String) (es : Entries)
    (st : ScanState) : ScanState :=
  match es with
  | Entries.nil => st
  | Entries.entryErr e rest =>
      visit_entries config dir rest
        { st with errors := st.errors ++
            ["Could not read entry in " ++ dir ++ ": " ++ e] }
  | Entries.entry name fs rest =>
      let path := dir ++ "/" ++ name
      match fs with
      | FS.dirErr e =>
          visit_entries config dir rest
            { st with errors := st.errors ++
                ["Could not read directory " ++ path ++ ": " ++ e] }
      | FS.dirOk l => visit_entries config dir rest (visit_entries config path l st)
      | FS.file data =>
          visit_entries config dir rest
            (if should_search_file config path then search_in_file config path data st
             else st)
      | FS.other => visit_entries config dir rest st

/-- Model of `SearchEngine::visit_dir` on a node standing at path `dir`.
A `read_dir` failure records its error and returns (the Rust function
always returns `Ok(())`, so its caller's `Err` branch is dead code and
the model is a total state transformer). `visit_dir` is only ever
invoked on directories; on non-directory nodes it is the identity. -/
def visit_dir (config : Config) (dir : String) (fs : FS) (st : ScanState) :
    ScanState :=
  match fs with
  | FS.dirErr e =>
      { st with errors := st.errors ++
          ["Could not read directory " ++ dir ++ ": " ++ e] }
  | FS.dirOk entries => visit_entries config dir entries st
  | FS.file _ => st
  | FS.other => st

/-- The scan performed by `SearchEngine::search`: `visit_dir` on the
configured root, starting from the empty state. -/
def runScan (config : Config) (fs : FS) : ScanState :=
  visit_dir config config.path fs ⟨[], 0, []⟩

/-! ### The reporter (`SearchEngine::search` output) -/

/-- The sequence of `writeln` calls of `SearchEngine::search`, given the
final scan state: header, results, summary, error tail. -/
def report (config : Config) (st : ScanState) : List String :=
  let out : List String := []
  let out := out ++
    ["Searching for \"" ++ config.search_text ++ "\" in " ++ config.path ++
      " and all subfolders..."]
  let out := if config.case_sensitive then out ++ ["Case-sensitive search enabled"] else out
  let out := out ++ ["Extensions: " ++ String.intercalate ", " config.extensions]
  let out := out ++ [""]
  let out :=
    if st.matches'.isEmpty then out ++ ["No matches found."]
    else
      let out := out ++
        ["Found " ++ toString st.matches'.length ++ " matches in " ++
          toString st.files_searched ++ " files:"]
      let out := out ++ [""]
      st.matches'.foldl (fun acc m => acc ++ [m.format_output config]) out
  let out := out ++ [""]
  let out := out ++
    ["Summary: " ++ toString st.files_searched ++ " files searched, " ++
      toString st.matches'.length ++ " matches found"]
  if st.errors.isEmpty then out
  else
    let out := out ++ [""]
    let out := out ++ ["Errors encountered:"]
    st.errors.foldl (fun acc e => acc ++ ["  " ++ e]) out

/-- The full report of one run: scan, then format. -/
def searchOutput (config : Config) (fs : FS) : List String :=
  report config (runScan config fs)

/-! ### Configuration parsing (`Config::new`) -/

/-- Model of `Config::usage`. -/
def usage : String :=
  "kemet - File Content Search Utility\n\nUSAGE:\n    kemet -s <search_text> [OPTIONS]\n\nOPTIONS:\n    -p, --path <PATH>           Directory to search (default: current directory)\n    -s, --search <TEXT>         Text to search for (required)\n    -e, --extensions <EXT>      Comma-separated file extensions (default: txt,json,cs,sql,config,rs,py,js,ts,html,css,xml)\n    -o, --output <FILE>         Output file path (if not provided, results shown on console)\n    -c, --case-sensitive        Enable case-sensitive search\n    -l, --show-lines           Show matching line content\n    -h, --help                 Show this help message\n\nEXAMPLES:\n    kemet -s \"function\"\n    kemet -p /home/user/code -s \"TODO\" -e \"rs,py,js\"\n    kemet -s \"Error\" -c -l\n    kemet -s \"function\" -o results.txt"

/-- Model of `Config::get_next_arg` on the tokens that follow the current flag:
`i + 1 < args.len()` becomes "the remainder is non-empty"; the returned
pair is the consumed value and the tokens after it (`i += 2`). -/
def get_next_arg (rest : List String) (arg_name : String) :
    Except String (String × List String) :=
  match rest with
  | [] => Except.error ("Missing value for " ++ arg_name)
  | value :: rest' =>
      if rustTrim value == "" then Except.error ("Empty " ++ arg_name ++ " provided")
      else Except.ok (value, rest')

/-- The per-item normalization in the `-e` branch of `Config::new`:
trim, keep a leading dot, otherwise prepend one. -/
def normalizeExt (s : String) : String :=
  let trimmed := rustTrim s
  if trimmed.data.head? = some '.' then trimmed else "." ++ trimmed

/-- The full `-e` value handling: split at commas, normalize each item. -/
def parseExtensions (csv : String) : List String :=
  (splitOnChar ',' csv.data).map (fun cs => normalizeExt (String.mk cs))

/-- The local mutable bindings of `Config::new` before validation. -/
structure ArgAcc where
  path : Option String
  search_text : Option String
  extensions : Option (List String)
  case_sensitive : Bool
  show_line_content : Bool
  output_file : Option String
deriving DecidableEq

/-- The initial bindings of `Config::new` (everything unset). -/
def initAcc : ArgAcc := ⟨none, none, none, false, false, none⟩

/-- The `while i < args.len()` loop of `Config::new`. The value-taking
branches inline `get_next_arg` (see `parseLoop_get_next_arg` below for
the correspondence): a missing next token is the "Missing value" error,
a whitespace-only next token the "Empty … provided" error, and
otherwise the token after the flag is consumed as its value. -/
def parseLoop (acc : ArgAcc) : List String → Except String ArgAcc
  | [] => Except.ok acc
  | tok :: rest =>
      if tok == "-p" || tok == "--path" then
        match rest with
        | [] => Except.error ("Missing value for " ++ "path")
        | v :: rest' =>
            if rustTrim v == "" then Except.error ("Empty " ++ "path" ++ " provided")
            else parseLoop { acc with path := some v } rest'
      else if tok == "-s" || tok == "--search" then
        match rest with
        | [] => Except.error ("Missing value for " ++ "search text")
        | v :: rest' =>
            if rustTrim v == "" then Except.error ("Empty " ++ "search text" ++ " provided")
            else parseLoop { acc with search_text := some v } rest'
      else if tok == "-e" || tok == "--extensions" then
        match rest with
        | [] => Except.error ("Missing value for " ++ "extensions")
        | v :: rest' =>
            if rustTrim v == "" then Except.error ("Empty " ++ "extensions" ++ " provided")
            else parseLoop { acc with extensions := some (parseExtensions v) } rest'
      else if tok == "-o" || tok == "--output" then
        match rest with
        | [] => Except.error ("Missing value for " ++ "output file")
        | v :: rest' =>
            if rustTrim v == "" then Except.error ("Empty " ++ "output file" ++ " provided")
            else parseLoop { acc with output_file := some v } rest'
      else if tok == "-c" || tok == "--case-sensitive" then
        parseLoop { acc with case_sensitive := true } rest
      else if tok == "-l" || tok == "--show-lines" then
        parseLoop { acc with show_line_content := true } rest
      else if tok == "-h" || tok == "--help" then
        Except.error usage
      else
        Except.error ("Unknown argument: " ++ tok ++ "\n\n" ++ usage)

/-- Model of `Config::resolve_path`. The environment enters as parameters: `cwd`
is what `env::current_dir` returns, `path_exists` and `is_dir` are
`Path::exists` / `Path::is_dir`. -/
def resolve_path (path : Option String) (cwd : String)
    (path_exists is_dir : String → Bool) : Except String String :=
  let path_str :=
    match path with
    | some p => if rustTrim p != "" && p != "." && p != "*" then p else cwd
    | none => cwd
  if !(path_exists path_str) then Except.error ("Path does not exist: " ++ path_str)
  else if !(is_dir path_str) then Except.error ("Path is not a directory: " ++ path_str)
  else Except.ok path_str

/-- The default extensions list of `Config::new`. -/
def default_extensions : List String :=
  [".txt", ".json", ".cs", ".sql", ".config", ".rs", ".py", ".js", ".ts",
   ".html", ".css", ".xml"]

/-- Model of `Config::new`: `args` is the full `env::args()` vector, program name
included; fewer than 3 tokens yield the usage text, then the flag loop
runs on `args[1..]`, then the path is resolved and the search text
checked. -/
def Config.new (args : List String) (cwd : String)
    (path_exists is_dir : String → Bool) : Except String Config :=
  if args.length < 3 then Except.error usage
  else
    match parseLoop initAcc (args.drop 1) with
    | Except.error e => Except.error e
    | Except.ok acc =>
        match resolve_path acc.path cwd path_exists is_dir with
        | Except.error e => Except.error e
        | Except.ok path =>
            match acc.search_text with
            | none => Except.error ("Search text is required\n\n" ++ usage)
            | some search_text =>
                Except.ok
                  { path := path, search_text := search_text,
                    extensions := acc.extensions.getD default_extensions,
                    case_sensitive := acc.case_sensitive,
                    show_line_content := acc.show_line_content,
                    output_file := acc.output_file }

/-- One whole run of `main`: build the configuration, then scan and
report. `Except.error` is the fatal path (message to stderr, exit 1). -/
def runProgram (args : List String) (cwd : String)
    (path_exists is_dir : String → Bool) (fs : FS) : Except String (List String) :=
  (Config.new args cwd path_exists is_dir).map (fun config => searchOutput config fs)

/-- An environment predicate that holds of every path (used to
instantiate `path_exists` / `is_dir` at concrete inputs). -/
def allTrue : String → Bool := fun _ => true

/-! ### Specification-side descriptions used in the claim statements -/

/-- The claims' case normalization: lowercase both sides when
`case_sensitive` is false, identity when true. -/
def normalize (config : Config) (s : String) : String :=
  if config.case_sensitive then s else lowercase s

/-- The matches the specification predicts for one fully readable file:
one `Match` per line whose normalized text contains the normalized
needle, carrying the 1-based line number and, when `show_line_content`
is set, the raw line. -/
def expected_matches (config : Config) (file_path : String)
    (lines : List String) : List Match :=
  lines.enum.filterMap (fun p =>
    if strContains (normalize config p.2) (normalize config config.search_text) then
      some ⟨file_path, p.1 + 1, if config.show_line_content then some p.2 else none⟩
    else none)

/-- Modelled from the spec: the claim's own reading of the extension
filter — "take the file's final extension segment (the part after the
last dot), prefix with a dot, and test case-insensitively against the
extensions list" — where *any* last dot of the file name begins the
extension segment. Used only to compare the claim against
`should_search_file`. -/
def claimed_extension_filter (config : Config) (path : String) : Bool :=
  match extAfterLastDot (fileName path).data with
  | none => false
  | some ext =>
      config.extensions.any (fun e => eq_ignore_ascii_case e ("." ++ String.mk ext))

/-! Unfolding equations for the mutual recursion, used in place of
automatic equation lemmas. -/

@[simp] theorem visit_dir_dirErr (config : Config) (dir e : String) (st : ScanState) :
    visit_dir config dir (FS.dirErr e) st =
      { st with errors := st.errors ++
          ["Could not read directory " ++ dir ++ ": " ++ e] } := rfl

@[simp] theorem visit_dir_dirOk (config : Config) (dir : String) (es : Entries)
    (st : ScanState) :
    visit_dir config dir (FS.dirOk es) st = visit_entries config dir es st := rfl

@[simp] theorem visit_dir_file (config : Config) (dir : String) (data : FileData)
    (st : ScanState) :
    visit_dir config dir (FS.file data) st = st := rfl

@[simp] theorem visit_dir_other (config : Config) (dir : String) (st : ScanState) :
    visit_dir config dir FS.other st = st := rfl

@[simp] theorem visit_entries_nil (config : Config) (dir : String) (st : ScanState) :
    visit_entries config dir Entries.nil st = st := rfl

@[simp] theorem visit_entries_entryErr (config : Config) (dir e : String)
    (rest : Entries) (st : ScanState) :
    visit_entries config dir (Entries.entryErr e rest) st =
      visit_entries config dir rest
        { st with errors := st.errors ++
            ["Could not read entry in " ++ dir ++ ": " ++ e] } := rfl

@[simp] theorem visit_entries_entry_dirErr (config : Config) (dir name e : String)
    (rest : Entries) (st : ScanState) :
    visit_entries config dir (Entries.entry name (FS.dirErr e) rest) st =
      visit_entries config dir rest
        (visit_dir config (dir ++ "/" ++ name) (FS.dirErr e) st) := rfl

@[simp] theorem visit_entries_entry_dirOk (config : Config) (dir name : String)
    (l : Entries) (rest : Entries) (st : ScanState) :
    visit_entries config dir (Entries.entry name (FS.dirOk l) rest) st =
      visit_entries config dir rest
        (visit_dir config (dir ++ "/" ++ name) (FS.dirOk l) st) := rfl

@[simp] theorem visit_entries_entry_file (config : Config) (dir name : String)
    (data : FileData) (rest : Entries) (st : ScanState) :
    visit_entries config dir (Entries.entry name (FS.file data) rest) st =
      visit_entries config dir rest
        (if should_search_file config (dir ++ "/" ++ name) then
          search_in_file config (dir ++ "/" ++ name) data st
         else st) := rfl

@[simp] theorem visit_entries_entry_other (config : Config) (dir name : String)
    (rest : Entries) (st : ScanState) :
    visit_entries config dir (Entries.entry name FS.other rest) st =
      visit_entries config dir rest st := rfl

/-! ### Helper lemmas about the line-scanning loop -/

theorem scan_lines_map_ok (config : Config) (fp nt : String) (lines : List String) :
    ∀ (n : Nat) (st : ScanState),
    scan_lines config fp nt n (lines.map Except.ok) st =
      { st with matches' := st.matches' ++
          (lines.enumFrom n).filterMap (fun p =>
            if strContains (if config.case_sensitive then p.2 else lowercase p.2) nt then
              some ⟨fp, p.1 + 1, if config.show_line_content then some p.2 else none⟩
            else none) } := by
  induction lines with
  | nil => intro n st; simp [scan_lines]
  | cons l ls ih =>
      intro n st
      by_cases h : strContains (if config.case_sensitive then l else lowercase l) nt
      · simp [scan_lines, h, ih, List.enumFrom_cons, List.filterMap_cons]
      · simp [scan_lines, h, ih, List.enumFrom_cons, List.filterMap_cons]

theorem expected_matches_enumFrom_mem (config : Config) (fp nt : String) :
    ∀ (lines : List String) (n : Nat) (m : Match),
    m ∈ (lines.enumFrom n).filterMap (fun p =>
          if strContains (if config.case_sensitive then p.2 else lowercase p.2) nt then
            some ⟨fp, p.1 + 1, if config.show_line_content then some p.2 else none⟩
          else none) →
    n < m.line_number := by
  intro lines
  induction lines with
  | nil => intro n m h; simp [List.enumFrom] at h
  | cons l ls ih =>
      intro n m h
      simp only [List.enumFrom_cons, List.filterMap_cons] at h
      by_cases hc : strContains (if config.case_sensitive then l else lowercase l) nt
      · simp only [hc, if_pos] at h
        rcases List.mem_cons.mp h with h1 | h2
        · subst h1; exact Nat.lt_succ_self n
        · exact Nat.lt_of_succ_lt (ih (n + 1) m h2)
      · simp only [hc] at h
        exact Nat.lt_of_succ_lt (ih (n + 1) m h)

theorem expected_matches_enumFrom_pairwise (config : Config) (fp nt : String) :
    ∀ (lines : List String) (n : Nat),
    ((lines.enumFrom n).filterMap (fun p =>
        if strContains (if config.case_sensitive then p.2 else lowercase p.2) nt then
          some (Match.mk fp (p.1 + 1) (if config.show_line_content then some p.2 else none))
        else none)).Pairwise (fun a b => a.line_number < b.line_number) := by
  intro lines
  induction lines with
  | nil => intro n; simp [List.enumFrom]
  | cons l ls ih =>
      intro n
      simp only [List.enumFrom_cons, List.filterMap_cons]
      by_cases hc : strContains (if config.case_sensitive then l else lowercase l) nt
      · simp only [hc, if_pos]
        refine List.Pairwise.cons ?_ (ih (n + 1))
        intro m hm
        exact expected_matches_enumFrom_mem config fp nt ls (n + 1) m hm
      · simp only [hc]
        exact ih (n + 1)

/-- Claim C1: for a file whose every line is read successfully, the matches
appended by `search_in_file` are exactly one `Match` per line whose
case-normalized text contains the case-normalized needle, with the
1-based line number and (when `show_line_content`) the raw line as
content; the produced matches have strictly increasing line numbers, so
a line yields at most one of them. -/
theorem search_in_file_spec (config : Config) (file_path : String)
    (lines : List String) (st : ScanState) :
    search_in_file config file_path ⟨none, lines.map Except.ok⟩ st =
      { st with files_searched := st.files_searched + 1,
                matches' := st.matches' ++ expected_matches config file_path lines } ∧
    (expected_matches config file_path lines).Pairwise
      (fun a b => a.line_number < b.line_number) := by
  constructor
  · show scan_lines config file_path
        (if config.case_sensitive then config.search_text else lowercase config.search_text)
        0 (lines.map Except.ok) { st with files_searched := st.files_searched + 1 } = _
    rw [scan_lines_map_ok]
    have : expected_matches config file_path lines =
        (lines.enumFrom 0).filterMap (fun p =>
          if strContains (if config.case_sensitive then p.2 else lowercase p.2)
              (if config.case_sensitive then config.search_text
               else lowercase config.search_text) then
            some ⟨file_path, p.1 + 1,
                  if config.show_line_content then some p.2 else none⟩
          else none) := by
      unfold expected_matches normalize List.enum
      by_cases hc : config.case_sensitive <;> simp [hc]
    rw [this]
  · have : expected_matches config file_path lines =
        (lines.enumFrom 0).filterMap (fun p =>
          if strContains (if config.case_sensitive then p.2 else lowercase p.2)
              (if config.case_sensitive then config.search_text
               else lowercase config.search_text) then
            some ⟨file_path, p.1 + 1,
                  if config.show_line_content then some p.2 else none⟩
          else none) := by
      unfold expected_matches normalize List.enum
      by_cases hc : config.case_sensitive <;> simp [hc]
    rw [this]
    exact expected_matches_enumFrom_pairwise config file_path _ lines 0

/-! ### Helper lemmas about the error paths of the scanner -/

theorem scan_lines_files_searched (config : Config) (fp nt : String) :
    ∀ (lines : List (Except String String)) (n : Nat) (st : ScanState),
    (scan_lines config fp nt n lines st).files_searched = st.files_searched := by
  intro lines
  induction lines with
  | nil => intro n st; simp [scan_lines]
  | cons l ls ih =>
      intro n st
      cases l with
      | ok line =>
          by_cases h : strContains (if config.case_sensitive then line else lowercase line) nt <;>
            simp [scan_lines, h, ih]
      | error e => simp [scan_lines]

theorem scan_lines_break (config : Config) (fp nt e : String)
    (rest : List (Except String String)) :
    ∀ (oks : List String) (n : Nat) (st : ScanState),
    scan_lines config fp nt n (oks.map Except.ok ++ Except.error e :: rest) st =
      (let st2 := scan_lines config fp nt n (oks.map Except.ok) st
       { st2 with errors := st2.errors ++
          ["Could not read line " ++ toString (n + oks.length + 1) ++
            " in file " ++ fp ++ ": " ++ e] }) := by
  intro oks
  induction oks with
  | nil => intro n st; simp [scan_lines]
  | cons l ls ih =>
      intro n st
      have harith : n + 1 + ls.length + 1 = n + (ls.length + 1) + 1 := by omega
      by_cases h : strContains (if config.case_sensitive then l else lowercase l) nt <;>
        simp [scan_lines, h, ih, harith]

theorem scan_lines_errors_extend (config : Config) (fp nt : String) :
    ∀ (lines : List (Except String String)) (n : Nat) (st : ScanState),
    ∃ u, (scan_lines config fp nt n lines st).errors = st.errors ++ u := by
  intro lines
  induction lines with
  | nil => intro n st; exact ⟨[], by simp [scan_lines]⟩
  | cons l ls ih =>
      intro n st
      cases l with
      | ok line =>
          by_cases h : strContains (if config.case_sensitive then line else lowercase line) nt
          · obtain ⟨u, hu⟩ := ih (n + 1)
              { st with matches' := st.matches' ++
                  [⟨fp, n + 1, if config.show_line_content then some line else none⟩] }
            exact ⟨u, by simpa [scan_lines, h] using hu⟩
          · obtain ⟨u, hu⟩ := ih (n + 1) st
            exact ⟨u, by simpa [scan_lines, h] using hu⟩
      | error er =>
          exact ⟨["Could not read line " ++ toString (n + 1) ++ " in file " ++ fp ++
            ": " ++ er], by simp [scan_lines]⟩

theorem search_in_file_errors_extend (config : Config) (fp : String)
    (data : FileData) (st : ScanState) :
    ∃ u, (search_in_file config fp data st).errors = st.errors ++ u := by
  cases data with
  | mk oe lines =>
      cases oe with
      | some e => exact ⟨_, rfl⟩
      | none =>
          obtain ⟨u, hu⟩ := scan_lines_errors_extend config fp
            (if config.case_sensitive then config.search_text else lowercase config.search_text)
            lines 0 { st with files_searched := st.files_searched + 1 }
          exact ⟨u, by simpa [search_in_file] using hu⟩

/-- Claim C3: for a selected file, an open failure records
"Could not open file <path>: <reason>" and leaves `files_searched` and
the matches untouched; a successful open increments `files_searched`
regardless of what the lines hold; a line read error after the readable
prefix records "Could not read line <n> in file <path>: <reason>" with
`n` the 1-based position of the failing line, stops the file (the
remaining lines contribute nothing), and the file stays counted. -/
theorem search_in_file_error_handling (config : Config) (file_path : String)
    (st : ScanState) :
    (∀ e data, data.openErr = some e →
       search_in_file config file_path data st =
         { st with errors := st.errors ++
             ["Could not open file " ++ file_path ++ ": " ++ e] }) ∧
    (∀ lines, (search_in_file config file_path ⟨none, lines⟩ st).files_searched =
       st.files_searched + 1) ∧
    (∀ (oks : List String) (e : String) (rest : List (Except String String)),
       search_in_file config file_path
           ⟨none, oks.map Except.ok ++ Except.error e :: rest⟩ st =
         (let st2 := search_in_file config file_path ⟨none, oks.map Except.ok⟩ st
          { st2 with errors := st2.errors ++
              ["Could not read line " ++ toString (oks.length + 1) ++
                " in file " ++ file_path ++ ": " ++ e] })) := by
  refine ⟨?_, ?_, ?_⟩
  · intro e data h
    cases data with
    | mk oe lines => cases h; rfl
  · intro lines
    simp [search_in_file, scan_lines_files_searched]
  · intro oks e rest
    show scan_lines config file_path _ 0 _ _ = _
    rw [scan_lines_break]
    simp [search_in_file]

/-- Closed instance of `search_in_file_error_handling`: a file whose
open fails with reason "denied" only records the open error. -/
theorem search_in_file_error_handling_witness :
    search_in_file ⟨"r", "x", [".txt"], false, false, none⟩ "r/a.txt"
        ⟨some "denied", [Except.ok "x"]⟩ ⟨[], 0, []⟩ =
      ⟨[], 0, ["Could not open file r/a.txt: denied"]⟩ := by
  exact (search_in_file_error_handling ⟨"r", "x", [".txt"], false, false, none⟩
    "r/a.txt" ⟨[], 0, []⟩).1 "denied" ⟨some "denied", [Except.ok "x"]⟩ rfl

/-! ### Helper lemmas about traversal -/

theorem visit_entries_errors_extend (config : Config) (dir : String) (es : Entries)
    (st : ScanState) :
    ∃ u, (visit_entries config dir es st).errors = st.errors ++ u :=
  match es with
  | Entries.nil => ⟨[], by simp⟩
  | Entries.entryErr e rest => by
      obtain ⟨u, hu⟩ := visit_entries_errors_extend config dir rest
        { st with errors := st.errors ++ ["Could not read entry in " ++ dir ++ ": " ++ e] }
      exact ⟨["Could not read entry in " ++ dir ++ ": " ++ e] ++ u, by simp [hu]⟩
  | Entries.entry name (FS.dirErr e) rest => by
      obtain ⟨u, hu⟩ := visit_entries_errors_extend config dir rest
        { st with errors := st.errors ++
            ["Could not read directory " ++ (dir ++ "/" ++ name) ++ ": " ++ e] }
      exact ⟨["Could not read directory " ++ (dir ++ "/" ++ name) ++ ": " ++ e] ++ u,
        by simp [hu]⟩
  | Entries.entry name (FS.dirOk l) rest => by
      obtain ⟨u1, hu1⟩ := visit_entries_errors_extend config (dir ++ "/" ++ name) l st
      obtain ⟨u2, hu2⟩ := visit_entries_errors_extend config dir rest
        (visit_entries config (dir ++ "/" ++ name) l st)
      exact ⟨u1 ++ u2, by simp [hu2, hu1]⟩
  | Entries.entry name (FS.file data) rest => by
      by_cases h : should_search_file config (dir ++ "/" ++ name)
      · obtain ⟨u1, hu1⟩ := search_in_file_errors_extend config (dir ++ "/" ++ name) data st
        obtain ⟨u2, hu2⟩ := visit_entries_errors_extend config dir rest
          (search_in_file config (dir ++ "/" ++ name) data st)
        exact ⟨u1 ++ u2, by simp [h, hu2, hu1]⟩
      · obtain ⟨u, hu⟩ := visit_entries_errors_extend config dir rest st
        exact ⟨u, by simp [h, hu]⟩
  | Entries.entry name FS.other rest => by
      obtain ⟨u, hu⟩ := visit_entries_errors_extend config dir rest st
      exact ⟨u, by simp [hu]⟩

theorem visit_dir_errors_extend (config : Config) (dir : String) (fs : FS)
    (st : ScanState) :
    ∃ u, (visit_dir config dir fs st).errors = st.errors ++ u :=
  match fs with
  | FS.dirErr _ => ⟨_, rfl⟩
  | FS.dirOk entries => visit_entries_errors_extend config dir entries st
  | FS.file _ => ⟨[], by simp⟩
  | FS.other => ⟨[], by simp⟩

/-- Claim C4: traversal never aborts on a recoverable error. A directory
whose enumeration fails only records
"Could not read directory <dir>: <reason>" (the traversal resumes at
the parent, i.e. the sibling entries that follow are still processed);
a failing entry records "Could not read entry in <dir>: <reason>" and
the remaining entries are processed; and the whole scan only ever
appends to the error list, so recorded errors accumulate to the end. -/
theorem visit_dir_recoverable_errors (config : Config) (dir : String)
    (st : ScanState) :
    (∀ e, visit_dir config dir (FS.dirErr e) st =
       { st with errors := st.errors ++
           ["Could not read directory " ++ dir ++ ": " ++ e] }) ∧
    (∀ e rest, visit_entries config dir (Entries.entryErr e rest) st =
       visit_entries config dir rest
         { st with errors := st.errors ++
             ["Could not read entry in " ++ dir ++ ": " ++ e] }) ∧
    (∀ name e rest, visit_entries config dir (Entries.entry name (FS.dirErr e) rest) st =
       visit_entries config dir rest
         { st with errors := st.errors ++
             ["Could not read directory " ++ (dir ++ "/" ++ name) ++ ": " ++ e] }) ∧
    (∀ fs, ∃ u, (visit_dir config dir fs st).errors = st.errors ++ u) := by
  refine ⟨fun e => rfl, fun e rest => rfl, fun name e rest => rfl, ?_⟩
  intro fs
  exact visit_dir_errors_extend config dir fs st

/-! ### The reporter -/

theorem foldl_emit {α : Type} (f : α → String) (l : List α) :
    ∀ out : List String,
    l.foldl (fun acc m => acc ++ [f m]) out = out ++ l.map f := by
  induction l with
  | nil => simp
  | cons x xs ih => intro out; simp [ih]

/-- Claim C5: the report is exactly the header block, then either
"No matches found." or the "Found … :" line, a blank line and one
formatted line per match in insertion order, then the summary block,
and finally—only when errors were recorded—the error section in
insertion order after all match lines; and the emitted output of a run
is this report of the scan's final state. -/
theorem report_shape :
    (∀ (config : Config) (st : ScanState), report config st =
      ["Searching for \"" ++ config.search_text ++ "\" in " ++ config.path ++
        " and all subfolders..."] ++
      (if config.case_sensitive then ["Case-sensitive search enabled"] else []) ++
      ["Extensions: " ++ String.intercalate ", " config.extensions, ""] ++
      (if st.matches'.isEmpty then ["No matches found."]
       else ("Found " ++ toString st.matches'.length ++ " matches in " ++
              toString st.files_searched ++ " files:") :: "" ::
            st.matches'.map (fun m => m.format_output config)) ++
      ["", "Summary: " ++ toString st.files_searched ++ " files searched, " ++
        toString st.matches'.length ++ " matches found"] ++
      (if st.errors.isEmpty then []
       else "" :: "Errors encountered:" :: st.errors.map (fun e => "  " ++ e))) ∧
    (∀ (config : Config) (fs : FS),
      searchOutput config fs = report config (runScan config fs)) := by
  refine ⟨?_, fun config fs => rfl⟩
  intro config st
  by_cases h1 : config.case_sensitive <;>
    by_cases h2 : st.matches'.isEmpty <;>
      by_cases h3 : st.errors.isEmpty <;>
        simp [report, foldl_emit, h1, h2, h3]

/-! ### The extension filter -/

theorem extAfterLastDot_eq_none (cs : List Char) :
    extAfterLastDot cs = none ↔ '.' ∉ cs := by
  induction cs with
  | nil => simp [extAfterLastDot]
  | cons c cs ih =>
      by_cases hc : c = '.'
      · subst hc; simp [extAfterLastDot]
      · simp [extAfterLastDot, hc, ih, Ne.symm hc]

theorem extAfterLastDot_eq_some (cs : List Char) :
    ∀ a, extAfterLastDot cs = some a ↔ ∃ b, cs = b ++ '.' :: a ∧ '.' ∉ a := by
  induction cs with
  | nil =>
      intro a
      constructor
      · intro h; simp [extAfterLastDot] at h
      · rintro ⟨b, hb, -⟩; exact absurd hb (by simp)
  | cons c cs ih =>
      intro a
      by_cases hc : c = '.'
      · subst hc
        rw [show extAfterLastDot ('.' :: cs) = some ((extAfterLastDot cs).getD cs) from by
          simp [extAfterLastDot]]
        cases hrec : extAfterLastDot cs with
        | some a' =>
            simp only [Option.getD_some, Option.some.injEq]
            obtain ⟨b', hb', hna'⟩ := (ih a').mp hrec
            constructor
            · intro h
              subst h
              exact ⟨'.' :: b', by rw [hb']; rfl, hna'⟩
            · rintro ⟨b, hb, hna⟩
              cases b with
              | nil =>
                  simp only [List.nil_append, List.cons.injEq, true_and] at hb
                  subst hb
                  exact absurd (hb' ▸ (by simp : '.' ∈ b' ++ '.' :: a')) hna
              | cons c0 b0 =>
                  simp only [List.cons_append, List.cons.injEq] at hb
                  obtain ⟨-, hb⟩ := hb
                  have := (ih a).mpr ⟨b0, hb, hna⟩
                  rw [hrec] at this
                  exact Option.some.injEq _ _ ▸ this
        | none =>
            have hncs : '.' ∉ cs := (extAfterLastDot_eq_none cs).mp hrec
            simp only [Option.getD_none, Option.some.injEq]
            constructor
            · intro h; subst h; exact ⟨[], rfl, hncs⟩
            · rintro ⟨b, hb, hna⟩
              cases b with
              | nil => simp only [List.nil_append, List.cons.injEq, true_and] at hb; exact hb
              | cons c0 b0 =>
                  simp only [List.cons_append, List.cons.injEq] at hb
                  exact absurd (hb.2 ▸ (by simp : '.' ∈ b0 ++ '.' :: a)) hncs
      · rw [show extAfterLastDot (c :: cs) = extAfterLastDot cs from by
          simp [extAfterLastDot, hc]]
        rw [ih a]
        constructor
        · rintro ⟨b, hb, hna⟩; exact ⟨c :: b, by rw [hb]; rfl, hna⟩
        · rintro ⟨b, hb, hna⟩
          cases b with
          | nil =>
              simp only [List.nil_append, List.cons.injEq] at hb
              exact absurd hb.1 hc
          | cons c0 b0 =>
              simp only [List.cons_append, List.cons.injEq] at hb
              exact ⟨b0, hb.2, hna⟩

theorem rustExtension_eq_some (name ext : String) :
    rustExtension name = some ext ↔
      name ≠ ".." ∧ ∃ stem : String, stem ≠ "" ∧
        name = stem ++ "." ++ ext ∧ '.' ∉ ext.data := by
  by_cases hdd : name = ".."
  · subst hdd; simp [rustExtension]
  · have hbe : (name == "..") = false := by simpa using hdd
    constructor
    · intro h
      simp only [rustExtension, hbe, Bool.false_eq_true, if_false] at h
      cases hnd : name.data with
      | nil => rw [hnd] at h; simp at h
      | cons c rest =>
          rw [hnd] at h
          simp only [Option.map_eq_some'] at h
          obtain ⟨a, ha, hmk⟩ := h
          obtain ⟨b, hb, hna⟩ := (extAfterLastDot_eq_some rest a).mp ha
          have hext : ext.data = a := by rw [← hmk]
          refine ⟨hdd, String.mk (c :: b), by simp [String.ext_iff], ?_, by rw [hext]; exact hna⟩
          apply String.ext
          simp [String.data_append, hnd, hb, hext]
    · rintro ⟨-, stem, hst, heq, hna⟩
      have hd : name.data = stem.data ++ '.' :: ext.data := by
        rw [heq]; simp [String.data_append]
      simp only [rustExtension, hbe, Bool.false_eq_true, if_false]
      cases hsd : stem.data with
      | nil => exact absurd (String.ext hsd) hst
      | cons c sd =>
          rw [hd, hsd]
          simp only [List.cons_append, Option.map_eq_some']
          exact ⟨ext.data, (extAfterLastDot_eq_some _ _).mpr ⟨sd, rfl, hna⟩,
            String.ext rfl⟩

/-- Claim C2, counterexample: a hidden file named `.rs` refutes the claim as
stated. Its "part after the last dot" is `rs`, so the claim's filter
accepts it when `.rs` is in the extensions list, but
`Path::extension` gives a leading-dot-only file name no extension, so
the program skips the file: a scan over a directory holding `.rs` with
a matching line inside searches 0 files and finds nothing. -/
theorem extension_filter_counterexample :
    should_search_file ⟨"root", "fn", [".rs"], false, false, none⟩ "root/.rs" = false ∧
    claimed_extension_filter ⟨"root", "fn", [".rs"], false, false, none⟩ "root/.rs" = true ∧
    runScan ⟨"root", "fn", [".rs"], false, false, none⟩
        (FS.dirOk (Entries.entry ".rs"
          (FS.file ⟨none, [Except.ok "fn main"]⟩) Entries.nil)) =
      ⟨[], 0, []⟩ := by
  refine ⟨by decide, by decide, by decide⟩

/-- Claim C2 as amended: a file is scanned iff its file name splits as
`stem.ext` with a non-empty stem, a dot-free extension `ext`, file name
not `..`, and `.ext` case-insensitively equal to some configured
extension — so a dotless name, and a hidden file whose only dot is its
leading character, are never scanned; entries that fail the filter are
skipped without being opened (the scan state is untouched). -/
theorem extension_filter_amended :
    (∀ (config : Config) (p : String), should_search_file config p = true ↔
       ∃ stem ext : String, fileName p ≠ ".." ∧ stem ≠ "" ∧
         fileName p = stem ++ "." ++ ext ∧ '.' ∉ ext.data ∧
         config.extensions.any (fun e => eq_ignore_ascii_case e ("." ++ ext)) = true) ∧
    (∀ (config : Config) (dir name : String) (data : FileData) (rest : Entries)
        (st : ScanState),
       visit_entries config dir (Entries.entry name (FS.file data) rest) st =
         visit_entries config dir rest
           (if should_search_file config (dir ++ "/" ++ name) then
             search_in_file config (dir ++ "/" ++ name) data st
            else st)) ∧
    (∀ (config : Config) (dir name : String) (data : FileData) (rest : Entries)
        (st : ScanState),
       should_search_file config (dir ++ "/" ++ name) = false →
       visit_entries config dir (Entries.entry name (FS.file data) rest) st =
         visit_entries config dir rest st) := by
  refine ⟨?_, fun config dir name data rest st => rfl,
    fun config dir name data rest st h => by simp [h]⟩
  intro config p
  cases h : rustExtension (fileName p) with
  | none =>
      constructor
      · intro htrue; simp [should_search_file, h] at htrue
      · rintro ⟨stem, ext, hdd, hst, heq, hnd, hany⟩
        have : rustExtension (fileName p) = some ext :=
          (rustExtension_eq_some _ _).mpr ⟨hdd, stem, hst, heq, hnd⟩
        rw [h] at this
        exact absurd this (by simp)
  | some e =>
      obtain ⟨hdd, stem, hst, heq, hnd⟩ := (rustExtension_eq_some _ _).mp h
      constructor
      · intro htrue
        refine ⟨stem, e, hdd, hst, heq, hnd, ?_⟩
        simpa [should_search_file, h] using htrue
      · rintro ⟨stem', ext', hdd', hst', heq', hnd', hany⟩
        have : rustExtension (fileName p) = some ext' :=
          (rustExtension_eq_some _ _).mpr ⟨hdd', stem', hst', heq', hnd'⟩
        rw [h] at this
        have hee : ext' = e := by
          have := this.symm
          simpa using this
        rw [hee] at hany
        simpa [should_search_file, h] using hany

/-- Closed instance of `extension_filter_amended`: `a.md` fails the
`.rs`-only filter, so the entry is skipped with the state untouched. -/
theorem extension_filter_amended_witness :
    visit_entries ⟨"root", "fn", [".rs"], false, false, none⟩ "root"
        (Entries.entry "a.md" (FS.file ⟨none, [Except.ok "fn main"]⟩) Entries.nil)
        ⟨[], 0, []⟩ =
      visit_entries ⟨"root", "fn", [".rs"], false, false, none⟩ "root"
        Entries.nil ⟨[], 0, []⟩ := by
  exact extension_filter_amended.2.2 ⟨"root", "fn", [".rs"], false, false, none⟩
    "root" "a.md" ⟨none, [Except.ok "fn main"]⟩ Entries.nil ⟨[], 0, []⟩ (by decide)

/-! ### Configuration parsing -/

/-- The inlined value-taking branches of `parseLoop` compute exactly
`get_next_arg` followed by the loop on the remaining tokens, as in the
source. -/
theorem parseLoop_uses_get_next_arg (acc : ArgAcc) (rest : List String) :
    (parseLoop acc ("-p" :: rest) =
      (match get_next_arg rest "path" with
       | Except.error e => Except.error e
       | Except.ok (v, rest') => parseLoop { acc with path := some v } rest')) ∧
    (parseLoop acc ("-s" :: rest) =
      (match get_next_arg rest "search text" with
       | Except.error e => Except.error e
       | Except.ok (v, rest') => parseLoop { acc with search_text := some v } rest')) ∧
    (parseLoop acc ("-e" :: rest) =
      (match get_next_arg rest "extensions" with
       | Except.error e => Except.error e
       | Except.ok (v, rest') =>
           parseLoop { acc with extensions := some (parseExtensions v) } rest')) ∧
    (parseLoop acc ("-o" :: rest) =
      (match get_next_arg rest "output file" with
       | Except.error e => Except.error e
       | Except.ok (v, rest') => parseLoop { acc with output_file := some v } rest')) := by
  refine ⟨?_, ?_, ?_, ?_⟩ <;>
    (cases rest with
     | nil => rfl
     | cons v r =>
         by_cases h : rustTrim v == "" <;>
           simp [parseLoop, get_next_arg, h])

/-- Helper: `Config::new` propagates a loop error when the vector is long
enough to enter the loop. -/
theorem Config.new_of_parse_error (args : List String) (cwd : String)
    (pe isd : String → Bool) (e : String) (hlen : ¬ args.length < 3)
    (h : parseLoop initAcc args.tail = Except.error e) :
    Config.new args cwd pe isd = Except.error e := by
  simp [Config.new, hlen, h]

/-- Helper: `Config::new` on a successful loop: resolve the path, require the
search text, fill the defaults. -/
theorem Config.new_of_parse_ok (args : List String) (cwd : String)
    (pe isd : String → Bool) (acc : ArgAcc) (path stext : String)
    (hlen : ¬ args.length < 3)
    (h : parseLoop initAcc args.tail = Except.ok acc)
    (hrp : resolve_path acc.path cwd pe isd = Except.ok path)
    (hs : acc.search_text = some stext) :
    Config.new args cwd pe isd = Except.ok
      ⟨path, stext, acc.extensions.getD default_extensions,
        acc.case_sensitive, acc.show_line_content, acc.output_file⟩ := by
  simp [Config.new, hlen, h, hrp, hs]

/-- Claim C6, counterexample: an explicitly empty `-p` value does not fall
back to the current working directory — configuration parsing fails
with "Empty path provided", so no scan (and no root) exists at all. -/
theorem empty_path_counterexample :
    Config.new ["kemet", "-p", "", "-s", "needle"] "/cwd" allTrue allTrue =
      Except.error "Empty path provided" := by decide

/-- Claim C6 as amended: an omitted `-p`, or the values `.` and `*`, resolve
the root to the current working directory (when it exists and is a
directory); `resolve_path` itself would also default a whitespace-only
value to the cwd, but a whitespace-only `-p` value never reaches it:
`get_next_arg` rejects it with "Empty path provided" first. -/
theorem resolve_path_defaults (cwd : String) (path_exists is_dir : String → Bool)
    (hpe : path_exists cwd = true) (hid : is_dir cwd = true) :
    resolve_path none cwd path_exists is_dir = Except.ok cwd ∧
    resolve_path (some ".") cwd path_exists is_dir = Except.ok cwd ∧
    resolve_path (some "*") cwd path_exists is_dir = Except.ok cwd ∧
    (∀ s, rustTrim s = "" →
       resolve_path (some s) cwd path_exists is_dir = Except.ok cwd) ∧
    (∀ s rest arg_name, rustTrim s = "" →
       get_next_arg (s :: rest) arg_name =
         Except.error ("Empty " ++ arg_name ++ " provided")) ∧
    (∀ v, rustTrim v ≠ "" →
       Config.new ["kemet", "-s", v] cwd path_exists is_dir =
         Except.ok ⟨cwd, v, default_extensions, false, false, none⟩) := by
  refine ⟨by simp [resolve_path, hpe, hid], by simp [resolve_path, hpe, hid],
    by simp [resolve_path, hpe, hid], ?_, ?_, ?_⟩
  · intro s hs
    simp [resolve_path, hpe, hid, hs]
  · intro s rest arg_name hs
    simp [get_next_arg, hs]
  · intro v hv
    have hbe : (rustTrim v == "") = false := by simpa using hv
    have hpl : parseLoop initAcc ["-s", v] =
        Except.ok ⟨none, some v, none, false, false, none⟩ := by
      show (if (rustTrim v == "") = true then
              Except.error "Empty search text provided"
            else Except.ok (⟨none, some v, none, false, false, none⟩ : ArgAcc)) = _
      rw [hbe]
      simp
    exact Config.new_of_parse_ok ["kemet", "-s", v] cwd path_exists is_dir
      ⟨none, some v, none, false, false, none⟩ cwd v (by simp) hpl
      (by simp [resolve_path, hpe, hid]) rfl

/-- Closed instance of `resolve_path_defaults`: with an all-true
environment, an omitted path resolves to the cwd and a plain
`-s hello` invocation yields a config rooted at the cwd. -/
theorem resolve_path_defaults_witness :
    resolve_path none "/cwd" allTrue allTrue = Except.ok "/cwd" ∧
    Config.new ["kemet", "-s", "hello"] "/cwd" allTrue allTrue =
      Except.ok ⟨"/cwd", "hello", default_extensions, false, false, none⟩ := by
  exact ⟨(resolve_path_defaults "/cwd" allTrue allTrue rfl rfl).1,
    (resolve_path_defaults "/cwd" allTrue allTrue rfl rfl).2.2.2.2.2 "hello" (by decide)⟩

/-- Claim C7, counterexample: with `-s` as the only user argument the whole
vector has 2 tokens, so `Config::new` returns the usage text before the
flag loop ever runs — not "Missing value for search text". -/
theorem missing_value_counterexample :
    Config.new ["kemet", "-s"] "/cwd" allTrue allTrue = Except.error usage ∧
    usage ≠ "Missing value for search text" := by
  refine ⟨by decide, by decide⟩

/-- Claim C7 as amended: provided the argument vector (program name
included) has at least 3 tokens, a value-taking flag that the parser
reaches as the final token fails with "Missing value for <name>" for
that flag's value name; a shorter vector yields the usage text
instead. -/
theorem missing_value_amended :
    (∀ acc : ArgAcc,
       parseLoop acc ["-p"] = Except.error "Missing value for path" ∧
       parseLoop acc ["--path"] = Except.error "Missing value for path" ∧
       parseLoop acc ["-s"] = Except.error "Missing value for search text" ∧
       parseLoop acc ["--search"] = Except.error "Missing value for search text" ∧
       parseLoop acc ["-e"] = Except.error "Missing value for extensions" ∧
       parseLoop acc ["--extensions"] = Except.error "Missing value for extensions" ∧
       parseLoop acc ["-o"] = Except.error "Missing value for output file" ∧
       parseLoop acc ["--output"] = Except.error "Missing value for output file") ∧
    (∀ (v cwd : String) (pe isd : String → Bool), rustTrim v ≠ "" →
       Config.new ["kemet", "-s", v, "-p"] cwd pe isd =
         Except.error "Missing value for path") ∧
    (∀ (args : List String) (cwd : String) (pe isd : String → Bool),
       args.length < 3 → Config.new args cwd pe isd = Except.error usage) := by
  refine ⟨fun acc => ⟨rfl, rfl, rfl, rfl, rfl, rfl, rfl, rfl⟩, ?_, ?_⟩
  · intro v cwd pe isd hv
    have hbe : (rustTrim v == "") = false := by simpa using hv
    apply Config.new_of_parse_error _ _ _ _ _ (by simp)
    show (if (rustTrim v == "") = true then
            Except.error "Empty search text provided"
          else Except.error "Missing value for path") = _
    rw [hbe]
    simp
  · intro args cwd pe isd h
    simp [Config.new, h]

/-- Closed instance of `missing_value_amended`: a trailing `-p` after a
complete `-s` pair fails with "Missing value for path". -/
theorem missing_value_amended_witness :
    Config.new ["kemet", "-s", "x", "-p"] "/cwd" allTrue allTrue =
      Except.error "Missing value for path" := by
  exact missing_value_amended.2.1 "x" "/cwd" allTrue allTrue (by decide)

/-- Claim C8: the `-e` items `rs`, `.rs` and `  rs  ` all normalize to the
dotted token `.rs`, so the three spellings put the program in literally
the same extension-filter state and accept exactly the same files. -/
theorem extension_normalization_idempotent :
    parseExtensions "rs" = [".rs"] ∧
    parseExtensions ".rs" = [".rs"] ∧
    parseExtensions "  rs  " = [".rs"] ∧
    (∀ (config : Config) (p : String),
       should_search_file { config with extensions := parseExtensions "rs" } p =
         should_search_file { config with extensions := parseExtensions ".rs" } p ∧
       should_search_file { config with extensions := parseExtensions "rs" } p =
         should_search_file { config with extensions := parseExtensions "  rs  " } p) := by
  refine ⟨by decide, by decide, by decide, fun config p => ⟨rfl, rfl⟩⟩

/-- Claim C9: a run is a pure function of the argument vector, the
environment (cwd, existence and directory predicates) and the
filesystem tree (which fixes the enumeration order), so two runs over
identical inputs produce identical output, byte for byte. -/
theorem run_deterministic (args1 args2 : List String) (cwd1 cwd2 : String)
    (pe1 pe2 isd1 isd2 : String → Bool) (fs1 fs2 : FS)
    (hargs : args1 = args2) (hcwd : cwd1 = cwd2) (hpe : pe1 = pe2)
    (hisd : isd1 = isd2) (hfs : fs1 = fs2) :
    runProgram args1 cwd1 pe1 isd1 fs1 = runProgram args2 cwd2 pe2 isd2 fs2 := by
  subst hargs; subst hcwd; subst hpe; subst hisd; subst hfs; rfl

/-- Closed instance of `run_deterministic` at a concrete invocation. -/
theorem run_deterministic_witness :
    runProgram ["kemet", "-s", "hello"] "/cwd" allTrue allTrue (FS.dirOk Entries.nil) =
      runProgram ["kemet", "-s", "hello"] "/cwd" allTrue allTrue (FS.dirOk Entries.nil) :=
  run_deterministic ["kemet", "-s", "hello"] ["kemet", "-s", "hello"] "/cwd" "/cwd"
    allTrue allTrue allTrue allTrue (FS.dirOk Entries.nil) (FS.dirOk Entries.nil)
    rfl rfl rfl rfl rfl

/-- Claim C10: a value-taking flag consumes whatever token follows it, flag
or not — `get_next_arg` on a non-empty remainder either accepts the
next token as the value or rejects a whitespace-only one, and only on
an empty remainder (the flag being the final token) does it produce the
"Missing value" error; concretely, `kemet -s -c` parses with needle
`-c` and case-sensitivity still disabled. -/
theorem value_flag_consumes_next_token :
    (∀ arg_name, get_next_arg [] arg_name =
       Except.error ("Missing value for " ++ arg_name)) ∧
    (∀ arg_name v rest, get_next_arg (v :: rest) arg_name = Except.ok (v, rest) ∨
       get_next_arg (v :: rest) arg_name =
         Except.error ("Empty " ++ arg_name ++ " provided")) ∧
    Config.new ["kemet", "-s", "-c"] "/cwd" allTrue allTrue =
      Except.ok ⟨"/cwd", "-c", default_extensions, false, false, none⟩ := by
  refine ⟨fun arg_name => rfl, ?_, by decide⟩
  intro arg_name v rest
  by_cases h : rustTrim v == ""
  · right; simp [get_next_arg, h]
  · left; simp [get_next_arg, h]

end Kemet
